import Mathlib

/-!
Verification of the csvtojsontree core pipeline (src/index.js).

The JavaScript source is shallowly embedded as follows.

* A JavaScript object is an ordered list of key/value entries (`JRec`);
  property read, write and delete follow JS semantics (write overwrites the
  first occurrence in place, otherwise appends; read returns the first match,
  `none` standing for `undefined`).
* The records produced by `group` are mutated in place by `makeTree` and
  `cleanTree`; the heap is modelled as the list of records itself, and a
  children array holds indices into that list (`RVal.refs`), which models the
  aliasing of child objects between the parent's children array and the
  record sequence.
* `makeTree` and `cleanTree` recurse without a structural termination
  argument in the source, so they are fuelled; running out of fuel is
  `JsErr.stackOverflow`, and a theorem that the result is `stackOverflow`
  for every fuel amount states that the JS recursion never returns.
* JavaScript runtime type errors (property access on `undefined`,
  calling `.search`/`.forEach` on `undefined`) are `JsErr.typeError`.
-/

set_option autoImplicit false

namespace CsvTree

/-- Values stored in a record object: strings, numbers (levels), arrays of
strings (comma-split cells), and arrays of references to other records
(children arrays), modelled as indices into the record heap. -/
inductive RVal where
  | str : String → RVal
  | num : Nat → RVal
  | strList : List String → RVal
  | refs : List Nat → RVal
deriving DecidableEq, Repr

/-- A JavaScript object: ordered key/value entries in insertion order. -/
abbrev JRec := List (String × RVal)

/-- JavaScript runtime failures: a `TypeError`, and stack exhaustion standing
for unbounded recursion (the model is fuelled). -/
inductive JsErr where
  | typeError
  | stackOverflow
deriving DecidableEq, Repr

/-- List lookup, `none` past the end (JS `a[i]` giving `undefined`). -/
def lget {α : Type} : List α → Nat → Option α
  | [], _ => none
  | x :: _, 0 => some x
  | _ :: xs, n + 1 => lget xs n

/-- List update at an index (in-bounds in every use below). -/
def lset {α : Type} : List α → Nat → α → List α
  | [], _, _ => []
  | _ :: xs, 0, v => v :: xs
  | x :: xs, n + 1, v => x :: lset xs n v

/-- Property read `o[k]`: first matching key, `none` for `undefined`. -/
def getProp : JRec → String → Option RVal
  | [], _ => none
  | (k', v) :: rest, k => if k' = k then some v else getProp rest k

/-- Property write `o[k] = v`: overwrite the first occurrence in place,
otherwise append (JS object assignment). -/
def setProp : JRec → String → RVal → JRec
  | [], k, v => [(k, v)]
  | (k', v') :: rest, k, v =>
    if k' = k then (k', v) :: rest else (k', v') :: setProp rest k v

/-- `delete o[k]`. -/
def delProp : JRec → String → JRec
  | [], _ => []
  | (k', v') :: rest, k => if k' = k then rest else (k', v') :: delProp rest k

/-- `Object.assign(target, src)`: copy the entries of `src` onto `target`
in order (src/index.js line 126). -/
def objAssign (target src : JRec) : JRec :=
  src.foldl (fun b kv => setProp b kv.1 kv.2) target

/-- `findLevel` (src/index.js lines 24-30): count of leading empty cells;
the JS `while (row[level] === '')` loop stops at the end of the row because
`undefined !== ''`. -/
def findLevel : List String → Nat
  | [] => 0
  | c :: rest => if c = "" then findLevel rest + 1 else 0

/-- `rowEmpty` (src/index.js lines 40-49): every cell is the empty string. -/
def rowEmpty : List String → Bool
  | [] => true
  | c :: rest => if c = "" then rowEmpty rest else false

/-- The whitespace characters removed by `String.prototype.trim` (the subset
occurring in cell data). -/
def isJsWs (c : Char) : Bool := c == ' ' || c == '\t' || c == '\n' || c == '\r'

/-- `String.prototype.trim` (src/index.js line 84: `entry.trim()`). -/
def jsTrim (s : String) : String :=
  String.mk (((s.data.dropWhile isJsWs).reverse.dropWhile isJsWs).reverse)

/-- `cell.search(',') !== -1` (src/index.js line 80): the cell contains a
comma. -/
def hasComma (s : String) : Bool := s.data.contains ','

/-- Helper for `splitComma`: accumulate the current chunk (reversed). -/
def splitCommaAux : List Char → List Char → List String
  | [], cur => [String.mk cur.reverse]
  | c :: rest, cur =>
    if c = ',' then String.mk cur.reverse :: splitCommaAux rest []
    else splitCommaAux rest (c :: cur)

/-- `String.prototype.split(',')` (src/index.js line 82). -/
def splitComma (s : String) : List String := splitCommaAux s.data []

/-- Result of `objectify` for one row: the `{ empty: true }` marker or a row
object (the separator marker is recognised in `group` by the strict equality
`rowEntry.empty === true`, which no content row object can satisfy). -/
inductive RowObj where
  | empty : RowObj
  | obj : JRec → RowObj
deriving DecidableEq, Repr

/-- `objectify` (src/index.js lines 63-102) on a single row.  The object
literal `{ level, children, [row[level]]: v }` is built by successive
property writes, so a label equal to `level` or `children` overwrites that
entry, exactly as in JS.  A non-separator row with no cell at `level + 1`
reaches `row[level + 1].search(',')` with `undefined` and throws a
`TypeError`. -/
def objectifyRow (row : List String) : Except JsErr RowObj :=
  if rowEmpty row then Except.ok RowObj.empty
  else
    let level := findLevel row
    let label := (lget row level).getD ""
    let childrenLabel := if lget row (level + 1) = some "" then label else ""
    match lget row (level + 1) with
    | none => Except.error JsErr.typeError
    | some cell =>
      let base := setProp (setProp [("level", RVal.num level)] "children"
        (RVal.str childrenLabel)) label
      if hasComma cell then
        Except.ok (RowObj.obj (base (RVal.strList ((splitComma cell).map jsTrim))))
      else
        Except.ok (RowObj.obj (base (RVal.str cell)))

/-- `objectify` over all rows; a thrown `TypeError` propagates out of the
`forEach`, discarding the partial result. -/
def objectify : List (List String) → Except JsErr (List RowObj)
  | [] => Except.ok []
  | row :: rest =>
    match objectifyRow row with
    | Except.error err => Except.error err
    | Except.ok o =>
      match objectify rest with
      | Except.error err => Except.error err
      | Except.ok os => Except.ok (o :: os)

/-- The loop of `group` (src/index.js lines 119-131) with its accumulating
`body`; the final `body` is pushed unconditionally (line 130). -/
def groupGo : List RowObj → JRec → List JRec
  | [], body => [body]
  | RowObj.empty :: rest, body => body :: groupGo rest []
  | RowObj.obj o :: rest, body => groupGo rest (objAssign body o)

/-- `group` (src/index.js lines 115-132). -/
def group (rowObjs : List RowObj) : List JRec := groupGo rowObjs []

/-- The string a JS value is converted to when used as a property key in
`root[childrenField]`: `undefined` gives the key `"undefined"`, arrays
join with commas. -/
def jsKey : Option RVal → String
  | none => "undefined"
  | some (RVal.str s) => s
  | some (RVal.num n) => toString n
  | some (RVal.strList l) => String.intercalate "," l
  | some (RVal.refs l) => String.intercalate "," (l.map fun _ => "[object Object]")

/-- `annotatedRows[i].level` for an index assumed in bounds by the scan loop. -/
def recLevel (recs : List JRec) (i : Nat) : Option RVal :=
  match lget recs i with
  | none => none
  | some r => getProp r "level"

/-- The strict comparison `annotatedRows[i].level === (level + 1)`
(src/index.js line 169): only two numbers can be strictly equal. -/
def isLevelSucc : Option RVal → Option RVal → Bool
  | some (RVal.num a), some (RVal.num b) => a == b + 1
  | _, _ => false

/-- State of the scan loop of `makeTree` (src/index.js lines 166-181). -/
structure ScanState where
  children : List Nat
  pairs : List (Nat × Nat)
  newBegin : Nat
  newEnd : Nat
deriving DecidableEq, Repr

/-- One iteration of the scan loop: on a match push the child, push the pair
`(previous newEnd, i)` and shift `newBegin`/`newEnd`. -/
def scanStep (recs : List JRec) (lvl : Option RVal) (s : ScanState) (i : Nat) :
    ScanState :=
  if isLevelSucc (recLevel recs i) lvl then
    ScanState.mk (s.children ++ [i]) (s.pairs ++ [(s.newEnd, i)]) s.newEnd i
  else s

/-- The index list `begin, begin+1, ..., begin+n-1` of the scan loop. -/
def idxRange : Nat → Nat → List Nat
  | _, 0 => []
  | s, n + 1 => s :: idxRange (s + 1) n

/-- `pairs.forEach(pair => makeTree(annotatedRows, pair.begin, pair.end))`
(src/index.js lines 196-198): return values are discarded, mutations and
thrown errors propagate. -/
def runPairs (mt : List JRec → Nat → Nat → Except JsErr (List JRec × Option Nat)) :
    List (Nat × Nat) → List JRec → Except JsErr (List JRec)
  | [], recs => Except.ok recs
  | p :: ps, recs =>
    match mt recs p.1 p.2 with
    | Except.error err => Except.error err
    | Except.ok (recs2, _) => runPairs mt ps recs2

/-- The body of `makeTree` (src/index.js lines 153-201), parameterised by the
recursive call.  A missing root record would make `root.level` throw; a scan
index past the end of the heap would make `annotatedRows[i].level` throw
(given that the root exists at `b < recs.length`, that happens exactly when
`recs.length < e`).  The result is the heap plus the returned value: `none`
is the JS `null` returned for a leaf root, `some b` is the root object. -/
def makeTreeStep (mt : List JRec → Nat → Nat → Except JsErr (List JRec × Option Nat))
    (recs : List JRec) (b e : Nat) : Except JsErr (List JRec × Option Nat) :=
  match lget recs b with
  | none => Except.error JsErr.typeError
  | some root =>
    let childrenField := getProp root "children"
    if childrenField = some (RVal.str "") then
      Except.ok (recs, none)
    else if recs.length < e then
      Except.error JsErr.typeError
    else
      let s := (idxRange b (e - b)).foldl
        (scanStep recs (getProp root "level")) (ScanState.mk [] [] b b)
      let recs1 := lset recs b (setProp root (jsKey childrenField) (RVal.refs s.children))
      match runPairs mt (s.pairs.drop 1 ++ [(s.newEnd, e)]) recs1 with
      | Except.error err => Except.error err
      | Except.ok recs2 => Except.ok (recs2, some b)

/-- Fuelled `makeTree`. -/
def makeTree : Nat → List JRec → Nat → Nat → Except JsErr (List JRec × Option Nat)
  | 0 => fun _ _ _ => Except.error JsErr.stackOverflow
  | fuel + 1 => makeTreeStep (makeTree fuel)

/-- `newRoot[newRoot.children].forEach(child => cleanTree(child))`
(src/index.js lines 215-217). -/
def runClean (ct : List JRec → Nat → Except JsErr (List JRec)) :
    List Nat → List JRec → Except JsErr (List JRec)
  | [], recs => Except.ok recs
  | i :: is, recs =>
    match ct recs i with
    | Except.error err => Except.error err
    | Except.ok recs2 => runClean ct is recs2

/-- The body of `cleanTree` (src/index.js lines 211-222), parameterised by
the recursive call.  `delete root.level` happens first; then, unless the
`children` field is the empty string (including when it is absent, since
`undefined !== ''`), `root[root.children]` must be an array to `.forEach`
over, otherwise a `TypeError` is thrown; finally `delete root.children`. -/
def cleanTreeStep (ct : List JRec → Nat → Except JsErr (List JRec))
    (recs : List JRec) (r : Nat) : Except JsErr (List JRec) :=
  match lget recs r with
  | none => Except.error JsErr.typeError
  | some root =>
    let root1 := delProp root "level"
    let recs1 := lset recs r root1
    let ch := getProp root1 "children"
    if ch = some (RVal.str "") then
      Except.ok (lset recs1 r (delProp root1 "children"))
    else
      match getProp root1 (jsKey ch) with
      | some (RVal.refs idxs) =>
        match runClean ct idxs recs1 with
        | Except.error err => Except.error err
        | Except.ok recs2 =>
          match lget recs2 r with
          | none => Except.error JsErr.typeError
          | some cur => Except.ok (lset recs2 r (delProp cur "children"))
      | _ => Except.error JsErr.typeError

/-- Fuelled `cleanTree`. -/
def cleanTree : Nat → List JRec → Nat → Except JsErr (List JRec)
  | 0 => fun _ _ => Except.error JsErr.stackOverflow
  | fuel + 1 => cleanTreeStep (cleanTree fuel)

/-- The core of `parse` (src/index.js lines 251-252):
`cleanTree(makeTree(group(objectify(rows)), 0, length))`.  When `makeTree`
returns `null` (a leaf root), `cleanTree(null)` evaluates `null.level` and
throws a `TypeError`. -/
def corePipeline (fuel : Nat) (rows : List (List String)) :
    Except JsErr (List JRec × Nat) :=
  match objectify rows with
  | Except.error err => Except.error err
  | Except.ok rowObjs =>
    let annotatedRows := group rowObjs
    match makeTree fuel annotatedRows 0 annotatedRows.length with
    | Except.error err => Except.error err
    | Except.ok (_, none) => Except.error JsErr.typeError
    | Except.ok (recs1, some r) =>
      match cleanTree fuel recs1 r with
      | Except.error err => Except.error err
      | Except.ok recs2 => Except.ok (recs2, r)

/-- The pure tree read back from the heap: what JSON serialisation of the
returned root object would see. -/
inductive JTree where
  | str : String → JTree
  | num : Nat → JTree
  | strList : List String → JTree
  | arr : List JTree → JTree
  | node : List (String × JTree) → JTree
deriving Repr

/-- Dereference a list of child record indices. -/
def derefList (dr : Nat → Option JTree) : List Nat → Option (List JTree)
  | [] => some []
  | i :: is =>
    match dr i, derefList dr is with
    | some t, some ts => some (t :: ts)
    | _, _ => none

/-- Dereference the entries of a record. -/
def derefEntries (dr : Nat → Option JTree) : JRec → Option (List (String × JTree))
  | [] => some []
  | (k, RVal.str s) :: rest => (derefEntries dr rest).map (fun ts => (k, JTree.str s) :: ts)
  | (k, RVal.num n) :: rest => (derefEntries dr rest).map (fun ts => (k, JTree.num n) :: ts)
  | (k, RVal.strList l) :: rest =>
    (derefEntries dr rest).map (fun ts => (k, JTree.strList l) :: ts)
  | (k, RVal.refs l) :: rest =>
    match derefList dr l, derefEntries dr rest with
    | some ts, some es => some ((k, JTree.arr ts) :: es)
    | _, _ => none

/-- Read the record at index `i` back as a pure tree (fuelled). -/
def deref : Nat → List JRec → Nat → Option JTree
  | 0, _, _ => none
  | fuel + 1, recs, i =>
    match lget recs i with
    | none => none
    | some r => (derefEntries (deref fuel recs) r).map JTree.node

/-- The whole pipeline followed by reading back the resulting tree. -/
def runPipeline (fuel : Nat) (rows : List (List String)) : Option JTree :=
  match corePipeline fuel rows with
  | Except.ok (recs, r) => deref fuel recs r
  | Except.error _ => none

/-! ### Derived definitions used to state and prove the claims -/

/-- The fixed point of the `makeTree` recursion on the single empty record
that `group` produces for empty input: the first call sets
`root[undefined] = []` and every later call rewrites that same entry. -/
def emptyRootFix : List JRec := [[("undefined", RVal.refs [])]]

/-- The record produced by grouping the rows `Root,name,,` / `Children,,,`:
a root with children label `Children` and no record at depth 1 anywhere. -/
def childlessRec : JRec :=
  [("level", RVal.num 0), ("children", RVal.str "Children"),
   ("Root", RVal.str "name"), ("Children", RVal.str "")]

/-- The fixed point reached after the first `makeTree` call on
`childlessRec`: `root[Children] = []` has been assigned. -/
def childlessFix : List JRec :=
  [[("level", RVal.num 0), ("children", RVal.str "Children"),
    ("Root", RVal.str "name"), ("Children", RVal.refs [])]]

/-- One step of the Grouper's merge over a classified row: separators leave
the body unchanged here (they are the split points), content rows are merged
with `Object.assign`. -/
def mergeStep (body : JRec) (o : RowObj) : JRec :=
  match o with
  | RowObj.empty => body
  | RowObj.obj r => objAssign body r

/-- Specification-side definition, transcribing the spec's record-boundary
policy: split the classified rows at separators, keeping empty runs, so a
leading separator, two consecutive separators and the (possibly empty) final
run each delimit a record. -/
def splitAtSeps : List RowObj → List (List RowObj)
  | [] => [[]]
  | RowObj.empty :: rest => [] :: splitAtSeps rest
  | RowObj.obj o :: rest =>
    match splitAtSeps rest with
    | [] => [[RowObj.obj o]]
    | run :: runs => (RowObj.obj o :: run) :: runs

/-- Specification-side Grouper: one record per separator-delimited run, each
run merged in order, empty runs giving empty records, the final run emitted
unconditionally. -/
def groupSpec (rowObjs : List RowObj) : List JRec :=
  (splitAtSeps rowObjs).map (fun run => run.foldl mergeStep [])

/-- The pairs `(start, c0), (c0, c1), …` the scan loop pushes: each child
index paired with the previous one (the loop's shifting `newEnd`). -/
def consecPairs (start : Nat) : List Nat → List (Nat × Nat)
  | [] => []
  | c :: cs => (start, c) :: consecPairs c cs

/-- Last element of a list, with a default: the final value of `newEnd`. -/
def lastD : List Nat → Nat → Nat
  | [], d => d
  | c :: cs, _ => lastD cs c

/-- The child indices the scan loop of `makeTree` discovers in `[b, e)`:
those whose `level` is strictly equal to the root's `level + 1`. -/
def childScan (recs : List JRec) (b e : Nat) : List Nat :=
  (idxRange b (e - b)).filter (fun i => isLevelSucc (recLevel recs i) (recLevel recs b))

/-- The scan-loop state `makeTree` computes for root `root` over `[b, e)`. -/
def scanResult (recs : List JRec) (root : JRec) (b e : Nat) : ScanState :=
  (idxRange b (e - b)).foldl (scanStep recs (getProp root "level")) (ScanState.mk [] [] b b)

/-- The grouped records of the C7 scenario before `makeTree`. -/
def recsW : List JRec :=
  [[("level", RVal.num 0), ("children", RVal.str "Children"),
    ("Root", RVal.str "name"), ("Children", RVal.str "")],
   [("level", RVal.num 1), ("children", RVal.str ""), ("Child1", RVal.str "name")]]

/-- The root record of `recsW`. -/
def rootW : JRec :=
  [("level", RVal.num 0), ("children", RVal.str "Children"),
   ("Root", RVal.str "name"), ("Children", RVal.str "")]

/-- The heap `recsW` after `makeTree` has attached the children of the root:
the `Children` entry has been overwritten in place by the children array. -/
def recs2W : List JRec :=
  [[("level", RVal.num 0), ("children", RVal.str "Children"),
    ("Root", RVal.str "name"), ("Children", RVal.refs [1])],
   [("level", RVal.num 1), ("children", RVal.str ""), ("Child1", RVal.str "name")]]

/-! ### Basic lemmas about the object operations -/

theorem getProp_setProp_self (o : JRec) (k : String) (v : RVal) :
    getProp (setProp o k v) k = some v := by
  induction o with
  | nil => simp [setProp, getProp]
  | cons kv rest ih =>
    obtain ⟨k', v'⟩ := kv
    by_cases h : k' = k <;> simp [setProp, getProp, h, ih]

theorem getProp_setProp_ne (o : JRec) (k k' : String) (v : RVal) (h : k ≠ k') :
    getProp (setProp o k v) k' = getProp o k' := by
  induction o with
  | nil => simp [setProp, getProp, h]
  | cons kv rest ih =>
    obtain ⟨k₀, v₀⟩ := kv
    by_cases h₀ : k₀ = k
    · subst h₀
      simp [setProp, getProp, h]
    · simp [setProp, getProp, h₀, ih]

theorem getProp_delProp_ne (o : JRec) (k k' : String) (h : k ≠ k') :
    getProp (delProp o k) k' = getProp o k' := by
  induction o with
  | nil => simp [delProp]
  | cons kv rest ih =>
    obtain ⟨k₀, v₀⟩ := kv
    by_cases h₀ : k₀ = k
    · subst h₀
      simp [delProp, getProp, h]
    · simp [delProp, getProp, h₀, ih]

theorem setProp_fst_of_isSome (o : JRec) (k : String) (v : RVal)
    (h : (getProp o k).isSome) : (setProp o k v).map Prod.fst = o.map Prod.fst := by
  induction o with
  | nil => simp [getProp] at h
  | cons kv rest ih =>
    obtain ⟨k₀, v₀⟩ := kv
    by_cases h₀ : k₀ = k
    · subst h₀
      simp [setProp]
    · simp [getProp, h₀] at h
      simp [setProp, h₀, ih h]

theorem lget_eq_none_of_length_le {α : Type} (l : List α) (n : Nat)
    (h : l.length ≤ n) : lget l n = none := by
  induction l generalizing n with
  | nil => rfl
  | cons x xs ih =>
    cases n with
    | zero => simp at h
    | succ m =>
      refine ih m ?_
      simp only [List.length_cons] at h
      omega

theorem lget_lset_ne {α : Type} (l : List α) (i j : Nat) (v : α) (h : i ≠ j) :
    lget (lset l i v) j = lget l j := by
  induction l generalizing i j with
  | nil => rfl
  | cons x xs ih =>
    cases i with
    | zero =>
      cases j with
      | zero => exact absurd rfl h
      | succ m => rfl
    | succ n =>
      cases j with
      | zero => rfl
      | succ m => exact ih n m (by omega)

theorem lget_lset_self {α : Type} (l : List α) (i : Nat) (v : α)
    (h : i < l.length) : lget (lset l i v) i = some v := by
  induction l generalizing i with
  | nil => simp at h
  | cons x xs ih =>
    cases i with
    | zero => rfl
    | succ n =>
      refine ih n ?_
      simp only [List.length_cons] at h
      omega

/-! ### Claim C7 -/

/-- Claim C7: for the input of exactly the four rows
`Root,name,,` / `Children,,,` / `,,,` / `,Child1,name,` the full core
pipeline (classify, group, build tree, finalize) returns the tree
`{"Root":"name","Children":[{"Child1":"name"}]}`. -/
theorem c7_scenario_pipeline :
    runPipeline 10 [["Root", "name", "", ""], ["Children", "", "", ""],
        ["", "", "", ""], ["", "Child1", "name", ""]]
      = some (JTree.node [("Root", JTree.str "name"),
          ("Children", JTree.arr [JTree.node [("Child1", JTree.str "name")]])]) := by
  rfl

/-! ### Claim C1 -/

/-- Claim C1 (counterexample): on a record sequence whose record at index 0
has an empty children label, `makeTree` returns JS `null` (modelled `none`),
not the record itself (which would be the reference `some 0`). -/
theorem c1_counterexample :
    makeTree 5 [[("level", RVal.num 0), ("children", RVal.str ""),
        ("Root", RVal.str "name")]] 0 1
      = Except.ok ([[("level", RVal.num 0), ("children", RVal.str ""),
          ("Root", RVal.str "name")]], none)
    ∧ (none : Option Nat) ≠ some 0 :=
  ⟨rfl, by simp⟩

/-- Claim C1 (amended): if the record at index `b` has an empty children
label, `makeTree` returns `null` — not the record itself — while leaving the
record sequence unchanged and adding no children attribute. -/
theorem c1_makeTree_leaf_returns_null (fuel : Nat) (recs : List JRec) (b e : Nat)
    (root : JRec) (hb : lget recs b = some root)
    (hc : getProp root "children" = some (RVal.str "")) :
    makeTree (fuel + 1) recs b e = Except.ok (recs, none) := by
  simp [makeTree, makeTreeStep, hb, hc]

/-- Witness for `c1_makeTree_leaf_returns_null` at a concrete input. -/
theorem c1_witness :
    makeTree 1 [[("children", RVal.str "")]] 0 1
      = Except.ok ([[("children", RVal.str "")]], none) :=
  c1_makeTree_leaf_returns_null 0 [[("children", RVal.str "")]] 0 1
    [("children", RVal.str "")] rfl rfl

/-! ### Claim C4 -/

/-- Claim C4: a non-separator row with fewer than `depth + 2` cells does not
get the no-paired-value treatment the spec requires; instead `objectify`
evaluates `row[depth + 1].search(',')` with `row[depth + 1]` equal to
`undefined` and throws a `TypeError`. -/
theorem c4_short_row_throws (row : List String)
    (hne : rowEmpty row = false) (hshort : row.length < findLevel row + 2) :
    objectifyRow row = Except.error JsErr.typeError := by
  have h : lget row (findLevel row + 1) = none :=
    lget_eq_none_of_length_le _ _ (by omega)
  simp [objectifyRow, hne, h]

/-- Witness for `c4_short_row_throws`: the row `["", "x"]` has depth 1 and
only 2 cells, and the classifier throws on it. -/
theorem c4_witness :
    rowEmpty ["", "x"] = false
    ∧ (["", "x"] : List String).length < findLevel ["", "x"] + 2
    ∧ objectifyRow ["", "x"] = Except.error JsErr.typeError :=
  ⟨rfl, by decide, c4_short_row_throws ["", "x"] rfl (by decide)⟩

/-! ### Claim C5 -/

/-- Claim C5 (counterexample): applying the Finalizer to an already-finalized
tree (here the finalized output of the C7 scenario) throws a `TypeError`
instead of being a no-op: `root.children` is `undefined`, which is
`!== ''`, so the code evaluates `root[undefined].forEach`. -/
theorem c5_counterexample :
    cleanTree 5 [[("Root", RVal.str "name"), ("Children", RVal.refs [1])],
        [("Child1", RVal.str "name")]] 0
      = Except.error JsErr.typeError := by
  rfl

/-- Claim C5 (amended): the Finalizer is not idempotent.  On any record with
no `children` bookkeeping field (and no field literally named `undefined`),
`cleanTree` throws a `TypeError`, because `root.children` is `undefined`,
`undefined !== ''`, and `root[undefined]` has no `forEach`. -/
theorem c5_finalizer_not_idempotent (fuel : Nat) (recs : List JRec) (r : Nat)
    (root : JRec) (hb : lget recs r = some root)
    (hch : getProp root "children" = none)
    (hu : getProp root "undefined" = none) :
    cleanTree (fuel + 1) recs r = Except.error JsErr.typeError := by
  have h1 : getProp (delProp root "level") "children" = none := by
    rw [getProp_delProp_ne root "level" "children" (by decide)]
    exact hch
  have h2 : getProp (delProp root "level") "undefined" = none := by
    rw [getProp_delProp_ne root "level" "undefined" (by decide)]
    exact hu
  simp [cleanTree, cleanTreeStep, hb, h1, jsKey, h2]

/-- Witness for `c5_finalizer_not_idempotent` at a concrete finalized node. -/
theorem c5_witness :
    cleanTree 1 [[("Child1", RVal.str "name")]] 0 = Except.error JsErr.typeError :=
  c5_finalizer_not_idempotent 0 [[("Child1", RVal.str "name")]] 0
    [("Child1", RVal.str "name")] rfl rfl rfl

/-! ### Claim C6 -/

/-- Claim C6 (counterexample): two consecutive non-separator rows of depths 0
and 1 are merged into one record whose `level` is 1 — the depth set by the
first contributing row (0) is silently overwritten by the later row. -/
theorem c6_counterexample :
    (objectify [["a", "b"], ["", "c", "d"]]).map
        (fun objs => (group objs).map (fun r => getProp r "level"))
      = Except.ok [some (RVal.num 1)]
    ∧ (some (RVal.num 1) : Option RVal) ≠ some (RVal.num 0) :=
  ⟨rfl, by decide⟩

/-- `getProp _ "level"` through `Object.assign` of a row-object literal:
the literal's own `level` wins, whatever the accumulating body held. -/
theorem getProp_objAssign_literal (body : JRec) (lvl : Nat) (ch lbl : String)
    (v : RVal) :
    getProp (objAssign body (setProp (setProp [("level", RVal.num lvl)]
        "children" (RVal.str ch)) lbl v)) "level"
      = getProp (setProp (setProp [("level", RVal.num lvl)] "children"
          (RVal.str ch)) lbl v) "level" := by
  by_cases h1 : lbl = "level"
  · subst h1
    simp only [setProp, getProp, objAssign, List.foldl, reduceIte]
    rw [getProp_setProp_ne _ "children" "level" _ (by decide),
      getProp_setProp_self]
  · by_cases h2 : lbl = "children"
    · subst h2
      simp only [setProp, getProp, objAssign, List.foldl, reduceIte]
      rw [getProp_setProp_ne _ "children" "level" _ (by decide),
        getProp_setProp_self]
    · simp only [setProp, objAssign, List.foldl, reduceIte,
        if_neg (Ne.symm h1), if_neg (Ne.symm h2)]
      rw [getProp_setProp_ne _ lbl "level" _ h1,
        getProp_setProp_ne _ "children" "level" _ (by decide),
        getProp_setProp_self]
      simp [getProp]

/-- Claim C6 (amended): the Grouper applies last-writer-wins uniformly:
merging a later row object of the same record via `Object.assign` makes the
record's `level` equal to that later row's `level`, overwriting (not
preserving) any already-set depth. -/
theorem c6_last_writer_wins (body : JRec) (row : List String) (o : JRec)
    (h : objectifyRow row = Except.ok (RowObj.obj o)) :
    getProp (objAssign body o) "level" = getProp o "level" := by
  unfold objectifyRow at h
  by_cases hre : rowEmpty row
  · simp [hre] at h
  · simp only [hre, Bool.false_eq_true, if_false] at h
    cases hc : lget row (findLevel row + 1) with
    | none => simp [hc] at h
    | some cell =>
      simp only [hc] at h
      by_cases hcm : hasComma cell
      · simp only [hcm, if_true, Except.ok.injEq, RowObj.obj.injEq] at h
        rw [← h]
        exact getProp_objAssign_literal body _ _ _ _
      · simp only [hcm, Bool.false_eq_true, if_false, Except.ok.injEq,
          RowObj.obj.injEq] at h
        rw [← h]
        exact getProp_objAssign_literal body _ _ _ _

/-- Witness for `c6_last_writer_wins`: merging the row object of
`["", "c", "d"]` (depth 1) into a body whose depth is 0 gives depth 1. -/
theorem c6_witness :
    getProp (objAssign [("level", RVal.num 0), ("children", RVal.str ""),
        ("a", RVal.str "b")]
        [("level", RVal.num 1), ("children", RVal.str ""), ("c", RVal.str "d")])
      "level"
      = getProp [("level", RVal.num 1), ("children", RVal.str ""),
          ("c", RVal.str "d")] "level" :=
  c6_last_writer_wins [("level", RVal.num 0), ("children", RVal.str ""),
    ("a", RVal.str "b")] ["", "c", "d"]
    [("level", RVal.num 1), ("children", RVal.str ""), ("c", RVal.str "d")] rfl

/-! ### Claim C9 -/

/-- Claim C9: for a non-separator row whose cell right after the label
contains a comma, the classifier stores under the label the list of
comma-separated substrings, each trimmed. -/
theorem c9_comma_split (row : List String) (cell : String)
    (hne : rowEmpty row = false)
    (hcell : lget row (findLevel row + 1) = some cell)
    (hcomma : hasComma cell = true) :
    ∃ o, objectifyRow row = Except.ok (RowObj.obj o) ∧
      getProp o ((lget row (findLevel row)).getD "")
        = some (RVal.strList ((splitComma cell).map jsTrim)) := by
  refine ⟨setProp (setProp [("level", RVal.num (findLevel row))] "children"
      (RVal.str (if lget row (findLevel row + 1) = some "" then
        (lget row (findLevel row)).getD "" else "")))
      ((lget row (findLevel row)).getD "")
      (RVal.strList ((splitComma cell).map jsTrim)), ?_,
    getProp_setProp_self _ _ _⟩
  simp [objectifyRow, hne, hcell, hcomma]

/-- Witness for `c9_comma_split`: the cell `"a, b,c"` right after the label
`"x"` produces the trimmed list `["a", "b", "c"]`. -/
theorem c9_witness :
    ∃ o, objectifyRow ["x", "a, b,c"] = Except.ok (RowObj.obj o) ∧
      getProp o "x" = some (RVal.strList ["a", "b", "c"]) :=
  c9_comma_split ["x", "a, b,c"] "a, b,c" rfl rfl rfl

/-! ### Claim C2 -/

/-- On the fixed-point heap, `makeTree` recurses on the identical range
`(0, 1)` forever: for every fuel amount the result is stack exhaustion. -/
theorem makeTree_emptyRootFix (fuel : Nat) :
    makeTree fuel emptyRootFix 0 1 = Except.error JsErr.stackOverflow := by
  induction fuel with
  | zero => rfl
  | succ f ih =>
    have h : makeTree (f + 1) emptyRootFix 0 1
        = (match runPairs (makeTree f) [(0, 1)] emptyRootFix with
           | Except.error err => Except.error err
           | Except.ok recs2 => Except.ok (recs2, some 0)) := rfl
    have h2 : runPairs (makeTree f) [(0, 1)] emptyRootFix
        = (match makeTree f emptyRootFix 0 1 with
           | Except.error err => Except.error err
           | Except.ok (recs2, _) => runPairs (makeTree f) [] recs2) := rfl
    rw [h, h2, ih]

/-- `makeTree` on the record sequence `[{}]` produced by `group` for empty
input: the empty root has no `children` property, `undefined !== ''`, so the
guard falls through, zero children are found, and the final saved pair is
`(0, 1)` again — unbounded recursion. -/
theorem makeTree_empty_record_diverges (fuel : Nat) :
    makeTree fuel [[]] 0 1 = Except.error JsErr.stackOverflow := by
  cases fuel with
  | zero => rfl
  | succ f =>
    have h : makeTree (f + 1) [[]] 0 1
        = (match runPairs (makeTree f) [(0, 1)] emptyRootFix with
           | Except.error err => Except.error err
           | Except.ok recs2 => Except.ok (recs2, some 0)) := rfl
    have h2 : runPairs (makeTree f) [(0, 1)] emptyRootFix
        = (match makeTree f emptyRootFix 0 1 with
           | Except.error err => Except.error err
           | Except.ok (recs2, _) => runPairs (makeTree f) [] recs2) := rfl
    rw [h, h2, makeTree_emptyRootFix f]

/-- Claim C2: the core pipeline does not signal an `EmptyInputError` on zero
rows — no such error exists in the code.  Instead `group` produces the
single empty record `{}` and `makeTree` recurses forever on the range
`(0, 1)`: for every fuel amount the pipeline ends in stack exhaustion, never
in a returned tree nor in an explicit input-validation error. -/
theorem c2_empty_input_diverges (fuel : Nat) :
    corePipeline fuel [] = Except.error JsErr.stackOverflow := by
  have h : corePipeline fuel []
      = (match makeTree fuel [[]] 0 1 with
         | Except.error err => Except.error err
         | Except.ok (_, none) => Except.error JsErr.typeError
         | Except.ok (recs1, some r) =>
           match cleanTree fuel recs1 r with
           | Except.error err => Except.error err
           | Except.ok recs2 => Except.ok (recs2, r)) := rfl
  rw [h, makeTree_empty_record_diverges fuel]

/-! ### Claim C3 -/

/-- On the fixed-point heap the recursion repeats the identical call
forever. -/
theorem makeTree_childlessFix (fuel : Nat) :
    makeTree fuel childlessFix 0 1 = Except.error JsErr.stackOverflow := by
  induction fuel with
  | zero => rfl
  | succ f ih =>
    have h : makeTree (f + 1) childlessFix 0 1
        = (match runPairs (makeTree f) [(0, 1)] childlessFix with
           | Except.error err => Except.error err
           | Except.ok recs2 => Except.ok (recs2, some 0)) := rfl
    have h2 : runPairs (makeTree f) [(0, 1)] childlessFix
        = (match makeTree f childlessFix 0 1 with
           | Except.error err => Except.error err
           | Except.ok (recs2, _) => runPairs (makeTree f) [] recs2) := rfl
    rw [h, h2, ih]

/-- Claim C3: a root record with a non-empty children label but zero records
at depth `root.level + 1` in range does not yield an empty children list:
with no child found, `newEnd` stays at `begin` and the final saved pair is
`(begin, end)` itself, so `makeTree` recurses on its own arguments forever.
On the two-row input `Root,name,,` / `Children,,,` the whole pipeline ends
in stack exhaustion for every fuel amount. -/
theorem c3_childless_label_diverges (fuel : Nat) :
    corePipeline fuel [["Root", "name", "", ""], ["Children", "", "", ""]]
      = Except.error JsErr.stackOverflow := by
  have hm : ∀ g : Nat, makeTree g [childlessRec] 0 1
      = Except.error JsErr.stackOverflow := by
    intro g
    cases g with
    | zero => rfl
    | succ f =>
      have h : makeTree (f + 1) [childlessRec] 0 1
          = (match runPairs (makeTree f) [(0, 1)] childlessFix with
             | Except.error err => Except.error err
             | Except.ok recs2 => Except.ok (recs2, some 0)) := rfl
      have h2 : runPairs (makeTree f) [(0, 1)] childlessFix
          = (match makeTree f childlessFix 0 1 with
             | Except.error err => Except.error err
             | Except.ok (recs2, _) => runPairs (makeTree f) [] recs2) := rfl
      rw [h, h2, makeTree_childlessFix f]
  have h : corePipeline fuel [["Root", "name", "", ""], ["Children", "", "", ""]]
      = (match makeTree fuel [childlessRec] 0 1 with
         | Except.error err => Except.error err
         | Except.ok (_, none) => Except.error JsErr.typeError
         | Except.ok (recs1, some r) =>
           match cleanTree fuel recs1 r with
           | Except.error err => Except.error err
           | Except.ok recs2 => Except.ok (recs2, r)) := rfl
  rw [h, hm fuel]

/-! ### Claim C8 -/

theorem splitAtSeps_ne_nil (objs : List RowObj) : splitAtSeps objs ≠ [] := by
  cases objs with
  | nil => simp [splitAtSeps]
  | cons o rest =>
    cases o with
    | empty => simp [splitAtSeps]
    | obj r =>
      simp only [splitAtSeps]
      cases splitAtSeps rest <;> simp

theorem groupGo_eq_spec (objs : List RowObj) (body : JRec) (run : List RowObj)
    (runs : List (List RowObj)) (h : splitAtSeps objs = run :: runs) :
    groupGo objs body
      = run.foldl mergeStep body :: runs.map (fun r => r.foldl mergeStep []) := by
  induction objs generalizing body run runs with
  | nil =>
    simp only [splitAtSeps] at h
    injection h with h1 h2
    subst h1
    subst h2
    simp [groupGo]
  | cons o rest ih =>
    cases o with
    | empty =>
      simp only [splitAtSeps] at h
      injection h with h1 h2
      subst h1
      subst h2
      cases hr : splitAtSeps rest with
      | nil => exact absurd hr (splitAtSeps_ne_nil rest)
      | cons run' runs' =>
        simp only [groupGo, List.foldl]
        rw [ih [] run' runs' hr]
        simp
    | obj r =>
      simp only [splitAtSeps] at h
      cases hr : splitAtSeps rest with
      | nil => exact absurd hr (splitAtSeps_ne_nil rest)
      | cons run' runs' =>
        rw [hr] at h
        injection h with h1 h2
        subst h1
        subst h2
        simp only [groupGo, List.foldl, mergeStep]
        exact ih (objAssign body r) run' runs' hr

/-- Claim C8: the Grouper emits one record at each separator — even when the
accumulating record is empty, so consecutive separators or a leading
separator each still produce a record — and unconditionally emits the final
accumulating record, with records in the order the separators and merges
occur: `group` coincides with the spec-side `groupSpec`. -/
theorem c8_group_emits_per_separator (rowObjs : List RowObj) :
    group rowObjs = groupSpec rowObjs := by
  cases hr : splitAtSeps rowObjs with
  | nil => exact absurd hr (splitAtSeps_ne_nil rowObjs)
  | cons run runs =>
    rw [group, groupGo_eq_spec rowObjs [] run runs hr, groupSpec, hr]
    simp

/-! ### Claim C10, counterexample part -/

/-- Claim C10 (counterexample): the row `["children", ""]` declares children,
but because the computed key of the object literal collides with the
bookkeeping field `children`, the classifier does not set the children-label
field to the label: the literal `{level, children: 'children', children: ''}`
leaves `children` equal to `''`. -/
theorem c10_counterexample :
    objectifyRow ["children", ""]
      = Except.ok (RowObj.obj [("level", RVal.num 0), ("children", RVal.str "")])
    ∧ getProp [("level", RVal.num 0), ("children", RVal.str "")] "children"
        ≠ some (RVal.str "children") :=
  ⟨rfl, by decide⟩

/-! ### Scan-loop characterisation and a frame lemma for `makeTree` -/

theorem lt_length_of_lget_some {α : Type} (l : List α) (n : Nat) (x : α)
    (h : lget l n = some x) : n < l.length := by
  induction l generalizing n with
  | nil => cases h
  | cons y ys ih =>
    cases n with
    | zero => simp
    | succ m =>
      have := ih m h
      simp only [List.length_cons]
      omega

theorem isLevelSucc_self (x : Option RVal) : isLevelSucc x x = false := by
  cases x with
  | none => rfl
  | some v =>
    cases v with
    | num a =>
      simp only [isLevelSucc, beq_eq_false_iff_ne, ne_eq]
      omega
    | str s => rfl
    | strList l => rfl
    | refs l => rfl

theorem idxRange_le (n : Nat) : ∀ (s x : Nat), x ∈ idxRange s n → s ≤ x := by
  induction n with
  | zero =>
    intro s x h
    simp [idxRange] at h
  | succ m ih =>
    intro s x h
    simp only [idxRange, List.mem_cons] at h
    cases h with
    | inl h => omega
    | inr h =>
      have := ih (s + 1) x h
      omega

theorem recLevel_eq (recs : List JRec) (b : Nat) (root : JRec)
    (hb : lget recs b = some root) : recLevel recs b = getProp root "level" := by
  simp [recLevel, hb]

theorem childScan_gt (recs : List JRec) (b e c : Nat)
    (h : c ∈ childScan recs b e) : b < c := by
  simp only [childScan, List.mem_filter] at h
  obtain ⟨hmem, hp⟩ := h
  have hle := idxRange_le (e - b) b c hmem
  rcases Nat.lt_or_ge b c with hlt | hge
  · exact hlt
  · have hcb : c = b := by omega
    subst hcb
    rw [isLevelSucc_self] at hp
    cases hp

theorem consecPairs_fst (cs : List Nat) : ∀ (start : Nat) (pr : Nat × Nat),
    pr ∈ consecPairs start cs → pr.1 = start ∨ pr.1 ∈ cs := by
  induction cs with
  | nil =>
    intro start pr h
    simp [consecPairs] at h
  | cons c cs ih =>
    intro start pr h
    simp only [consecPairs, List.mem_cons] at h
    cases h with
    | inl h =>
      subst h
      left
      rfl
    | inr h =>
      rcases ih c pr h with h1 | h1
      · right
        simp [h1]
      · right
        simp [h1]

theorem lastD_mem (cs : List Nat) : ∀ d : Nat, cs ≠ [] → lastD cs d ∈ cs := by
  induction cs with
  | nil =>
    intro d h
    exact absurd rfl h
  | cons c cs ih =>
    intro d _
    by_cases hcs : cs = []
    · subst hcs
      simp [lastD]
    · have := ih c hcs
      simp [lastD, this]

theorem scan_foldl_closed (recs : List JRec) (lvl : Option RVal) :
    ∀ (l : List Nat) (s : ScanState),
      (l.foldl (scanStep recs lvl) s).children
          = s.children ++ l.filter (fun i => isLevelSucc (recLevel recs i) lvl)
      ∧ (l.foldl (scanStep recs lvl) s).pairs
          = s.pairs ++ consecPairs s.newEnd
              (l.filter (fun i => isLevelSucc (recLevel recs i) lvl))
      ∧ (l.foldl (scanStep recs lvl) s).newEnd
          = lastD (l.filter (fun i => isLevelSucc (recLevel recs i) lvl)) s.newEnd := by
  intro l
  induction l with
  | nil =>
    intro s
    simp [consecPairs, lastD]
  | cons i rest ih =>
    intro s
    cases hp : isLevelSucc (recLevel recs i) lvl with
    | false =>
      have hfil : List.filter (fun i => isLevelSucc (recLevel recs i) lvl) (i :: rest)
          = List.filter (fun i => isLevelSucc (recLevel recs i) lvl) rest := by
        simp [List.filter_cons, hp]
      have hstep : scanStep recs lvl s i = s := by
        simp [scanStep, hp]
      rw [List.foldl_cons, hstep, hfil]
      exact ih s
    | true =>
      have hfil : List.filter (fun i => isLevelSucc (recLevel recs i) lvl) (i :: rest)
          = i :: List.filter (fun i => isLevelSucc (recLevel recs i) lvl) rest := by
        simp [List.filter_cons, hp]
      have hstep : scanStep recs lvl s i
          = ScanState.mk (s.children ++ [i]) (s.pairs ++ [(s.newEnd, i)]) s.newEnd i := by
        simp [scanStep, hp]
      obtain ⟨h1, h2, h3⟩ := ih (ScanState.mk (s.children ++ [i])
        (s.pairs ++ [(s.newEnd, i)]) s.newEnd i)
      rw [List.foldl_cons, hstep, hfil]
      refine ⟨?_, ?_, ?_⟩
      · rw [h1]
        simp
      · rw [h2]
        simp [consecPairs]
      · rw [h3]
        simp [lastD]

theorem scanResult_children (recs : List JRec) (root : JRec) (b e : Nat)
    (hb : lget recs b = some root) :
    (scanResult recs root b e).children = childScan recs b e := by
  have h := (scan_foldl_closed recs (getProp root "level") (idxRange b (e - b))
    (ScanState.mk [] [] b b)).1
  rw [scanResult, h, childScan, recLevel_eq recs b root hb]
  simp

theorem scanResult_pairs (recs : List JRec) (root : JRec) (b e : Nat)
    (hb : lget recs b = some root) :
    (scanResult recs root b e).pairs = consecPairs b (childScan recs b e) := by
  have h := (scan_foldl_closed recs (getProp root "level") (idxRange b (e - b))
    (ScanState.mk [] [] b b)).2.1
  rw [scanResult, h, childScan, recLevel_eq recs b root hb]
  simp

theorem scanResult_newEnd (recs : List JRec) (root : JRec) (b e : Nat)
    (hb : lget recs b = some root) :
    (scanResult recs root b e).newEnd = lastD (childScan recs b e) b := by
  have h := (scan_foldl_closed recs (getProp root "level") (idxRange b (e - b))
    (ScanState.mk [] [] b b)).2.2
  rw [scanResult, h, childScan, recLevel_eq recs b root hb]

theorem makeTreeStep_run (mt : List JRec → Nat → Nat → Except JsErr (List JRec × Option Nat))
    (recs : List JRec) (b e : Nat) (root : JRec)
    (hb : lget recs b = some root)
    (hcf : ¬getProp root "children" = some (RVal.str ""))
    (hlen : ¬recs.length < e) :
    makeTreeStep mt recs b e
      = (match runPairs mt ((scanResult recs root b e).pairs.drop 1
            ++ [((scanResult recs root b e).newEnd, e)])
            (lset recs b (setProp root (jsKey (getProp root "children"))
              (RVal.refs (scanResult recs root b e).children))) with
         | Except.error err => Except.error err
         | Except.ok recs2 => Except.ok (recs2, some b)) := by
  simp only [makeTreeStep, hb, hcf, hlen, if_false, scanResult]

theorem runPairs_preserve (mt : List JRec → Nat → Nat → Except JsErr (List JRec × Option Nat))
    (j : Nat)
    (hmt : ∀ (recs : List JRec) (b e : Nat) (recs2 : List JRec) (res : Option Nat),
      mt recs b e = Except.ok (recs2, res) → j < b → lget recs2 j = lget recs j) :
    ∀ (ps : List (Nat × Nat)) (acc out : List JRec),
      (∀ pr ∈ ps, j < pr.1) → runPairs mt ps acc = Except.ok out →
      lget out j = lget acc j := by
  intro ps
  induction ps with
  | nil =>
    intro acc out _ h
    simp only [runPairs] at h
    injection h with h
    rw [h]
  | cons p ps ih =>
    intro acc out hps h
    simp only [runPairs] at h
    cases hcall : mt acc p.1 p.2 with
    | error err =>
      rw [hcall] at h
      simp at h
    | ok pr =>
      obtain ⟨recs2, res⟩ := pr
      rw [hcall] at h
      have h1 := hmt acc p.1 p.2 recs2 res hcall (hps p (List.mem_cons_self p ps))
      have h2 := ih recs2 out (fun q hq => hps q (List.mem_cons_of_mem p hq)) h
      rw [h2, h1]

/-- Frame property of `makeTree`: a call on range starting at `b` never
touches a record at an index below `b` (the root's own mutation is at `b`,
and every saved pair begins at `b` or at a child index `> b`). -/
theorem makeTree_frame (fuel : Nat) :
    ∀ (recs : List JRec) (b e : Nat) (recs2 : List JRec) (res : Option Nat),
      makeTree fuel recs b e = Except.ok (recs2, res) →
      ∀ j, j < b → lget recs2 j = lget recs j := by
  induction fuel with
  | zero =>
    intro recs b e recs2 res h
    exact absurd h (by simp [makeTree])
  | succ f ih =>
    intro recs b e recs2 res h j hj
    have hstep : makeTree (f + 1) recs b e = makeTreeStep (makeTree f) recs b e := rfl
    rw [hstep] at h
    cases hb : lget recs b with
    | none =>
      unfold makeTreeStep at h
      rw [hb] at h
      simp at h
    | some root =>
      by_cases hcf : getProp root "children" = some (RVal.str "")
      · unfold makeTreeStep at h
        rw [hb] at h
        simp only [hcf, if_true] at h
        injection h with h
        have h1 := (Prod.mk.inj h).1
        rw [← h1]
      · by_cases hlen : recs.length < e
        · unfold makeTreeStep at h
          rw [hb] at h
          simp [hcf, hlen] at h
        · rw [makeTreeStep_run (makeTree f) recs b e root hb hcf hlen,
            scanResult_pairs recs root b e hb, scanResult_newEnd recs root b e hb,
            scanResult_children recs root b e hb] at h
          cases hrp : runPairs (makeTree f)
              ((consecPairs b (childScan recs b e)).drop 1
                ++ [(lastD (childScan recs b e) b, e)])
              (lset recs b (setProp root (jsKey (getProp root "children"))
                (RVal.refs (childScan recs b e)))) with
          | error err =>
            rw [hrp] at h
            simp at h
          | ok out =>
            rw [hrp] at h
            injection h with h
            have h1 := (Prod.mk.inj h).1
            have hall : ∀ pr ∈ (consecPairs b (childScan recs b e)).drop 1
                ++ [(lastD (childScan recs b e) b, e)], j < pr.1 := by
              intro pr hpr
              have hge : b ≤ pr.1 := by
                rcases List.mem_append.mp hpr with hmem | hmem
                · have hmem' : pr ∈ consecPairs b (childScan recs b e) := by
                    cases hcp : consecPairs b (childScan recs b e) with
                    | nil =>
                      rw [hcp] at hmem
                      simp at hmem
                    | cons q qs =>
                      rw [hcp] at hmem
                      simp only [List.drop_one, List.tail_cons] at hmem
                      exact List.mem_cons_of_mem q hmem
                  rcases consecPairs_fst (childScan recs b e) b pr hmem' with h1 | h1
                  · omega
                  · exact Nat.le_of_lt (childScan_gt recs b e pr.1 h1)
                · simp only [List.mem_singleton] at hmem
                  subst hmem
                  by_cases hcs : childScan recs b e = []
                  · simp [hcs, lastD]
                  · exact Nat.le_of_lt
                      (childScan_gt recs b e _ (lastD_mem (childScan recs b e) b hcs))
              omega
            have hpres := runPairs_preserve (makeTree f) j
              (fun r b' e' r2 res' hc' hlt => ih r b' e' r2 res' hc' j hlt)
              _ _ _ hall hrp
            rw [← h1, hpres, lget_lset_ne recs b j _ (by omega)]

theorem consecPairs_drop_one_fst (cs : List Nat) (start : Nat) (pr : Nat × Nat)
    (h : pr ∈ (consecPairs start cs).drop 1) : pr.1 ∈ cs := by
  cases cs with
  | nil => simp [consecPairs] at h
  | cons c cs' =>
    simp only [consecPairs, List.drop_one, List.tail_cons] at h
    rcases consecPairs_fst cs' c pr h with h1 | h1
    · simp [h1]
    · simp [h1]

/-! ### Claim C10, amended theorem -/

/-- Claim C10 (amended): for a children-declaring row whose label is not the
literal string `children`, the classifier stores both the children-label
field and the entry `label -> ""`; and whenever `makeTree` succeeds on a
root whose children label `L` is non-empty, maps to the entry `L -> ""`, and
at least one child is found in range, the assignment `root[L] = children`
overwrites that entry in place — same key list, no second entry — leaving
`L` bound to the children array, never to the empty string.  (For the label
literally `children` the computed key of the object literal instead
overwrites the bookkeeping field, see the counterexample.) -/
theorem c10_overwrite_amended :
    (∀ row : List String, rowEmpty row = false →
      lget row (findLevel row + 1) = some "" →
      (lget row (findLevel row)).getD "" ≠ "children" →
      ∃ o, objectifyRow row = Except.ok (RowObj.obj o)
        ∧ getProp o "children" = some (RVal.str ((lget row (findLevel row)).getD ""))
        ∧ getProp o ((lget row (findLevel row)).getD "") = some (RVal.str ""))
    ∧ (∀ (fuel : Nat) (recs : List JRec) (b e : Nat) (root : JRec) (L : String)
        (recs2 : List JRec) (res : Option Nat),
      lget recs b = some root →
      getProp root "children" = some (RVal.str L) →
      L ≠ "" →
      getProp root L = some (RVal.str "") →
      childScan recs b e ≠ [] →
      makeTree (fuel + 1) recs b e = Except.ok (recs2, res) →
      lget recs2 b = some (setProp root L (RVal.refs (childScan recs b e)))
        ∧ (setProp root L (RVal.refs (childScan recs b e))).map Prod.fst
            = root.map Prod.fst
        ∧ getProp (setProp root L (RVal.refs (childScan recs b e))) L
            = some (RVal.refs (childScan recs b e))) := by
  constructor
  · intro row hne hch hlbl
    refine ⟨setProp (setProp [("level", RVal.num (findLevel row))] "children"
        (RVal.str ((lget row (findLevel row)).getD "")))
        ((lget row (findLevel row)).getD "") (RVal.str ""), ?_, ?_,
      getProp_setProp_self _ _ _⟩
    · simp [objectifyRow, hne, hch, hasComma]
    · rw [getProp_setProp_ne _ _ _ _ hlbl]
      simp [setProp, getProp]
  · intro fuel recs b e root L recs2 res hb hcf hL hentry hcs hok
    have hcf' : ¬getProp root "children" = some (RVal.str "") := by
      rw [hcf]
      simp [hL]
    have hkey : jsKey (getProp root "children") = L := by
      rw [hcf]
      rfl
    have hstep : makeTree (fuel + 1) recs b e = makeTreeStep (makeTree fuel) recs b e := rfl
    rw [hstep] at hok
    by_cases hlen : recs.length < e
    · unfold makeTreeStep at hok
      rw [hb] at hok
      simp [hcf', hlen] at hok
    · rw [makeTreeStep_run (makeTree fuel) recs b e root hb hcf' hlen,
        scanResult_pairs recs root b e hb, scanResult_newEnd recs root b e hb,
        scanResult_children recs root b e hb, hkey] at hok
      cases hrp : runPairs (makeTree fuel)
          ((consecPairs b (childScan recs b e)).drop 1
            ++ [(lastD (childScan recs b e) b, e)])
          (lset recs b (setProp root L (RVal.refs (childScan recs b e)))) with
      | error err =>
        rw [hrp] at hok
        simp at hok
      | ok out =>
        rw [hrp] at hok
        injection hok with hok
        have h1 := (Prod.mk.inj hok).1
        have hall : ∀ pr ∈ (consecPairs b (childScan recs b e)).drop 1
            ++ [(lastD (childScan recs b e) b, e)], b < pr.1 := by
          intro pr hpr
          rcases List.mem_append.mp hpr with hmem | hmem
          · exact childScan_gt recs b e pr.1
              (consecPairs_drop_one_fst (childScan recs b e) b pr hmem)
          · simp only [List.mem_singleton] at hmem
            subst hmem
            exact childScan_gt recs b e _ (lastD_mem (childScan recs b e) b hcs)
        have hblen : b < recs.length := lt_length_of_lget_some recs b root hb
        have hpres := runPairs_preserve (makeTree fuel) b
          (fun r b' e' r2 res' hc' hlt => makeTree_frame fuel r b' e' r2 res' hc' b hlt)
          _ _ _ hall hrp
        rw [lget_lset_self recs b _ hblen] at hpres
        refine ⟨?_, ?_, getProp_setProp_self root L _⟩
        · rw [← h1]
          exact hpres
        · exact setProp_fst_of_isSome root L _ (by rw [hentry]; rfl)

/-- Witness for `c10_overwrite_amended`: the declaring row `Children,,,` and
the C7 heap, where `makeTree 2` succeeds and overwrites `Children` in
place with the child array `[1]`. -/
theorem c10_witness :
    (∃ o, objectifyRow ["Children", "", "", ""] = Except.ok (RowObj.obj o)
      ∧ getProp o "children" = some (RVal.str "Children")
      ∧ getProp o "Children" = some (RVal.str ""))
    ∧ (lget recs2W 0 = some (setProp rootW "Children" (RVal.refs (childScan recsW 0 2)))
      ∧ (setProp rootW "Children" (RVal.refs (childScan recsW 0 2))).map Prod.fst
          = rootW.map Prod.fst
      ∧ getProp (setProp rootW "Children" (RVal.refs (childScan recsW 0 2))) "Children"
          = some (RVal.refs (childScan recsW 0 2))) :=
  ⟨c10_overwrite_amended.1 ["Children", "", "", ""] rfl rfl (by decide),
   c10_overwrite_amended.2 1 recsW 0 2 rootW "Children" recs2W (some 0)
     rfl rfl (by decide) rfl (by decide) rfl⟩

end CsvTree
